import Mathlib

set_option maxHeartbeats 1000000

/-!
Shallow embedding of the identity/protocol layer of `sshagent/trezor/client.py`
(trezor-agent): identity string codec, key-path derivation, SSH challenge blob
codec, signature processing and the session orchestrator, together with proofs
of the specified properties.
-/

/-- Structured identity (the protobuf `IdentityType`): string fields default to
the empty string, which represents an absent field, and `index` defaults to 0. -/
structure Identity where
  proto : String := ""
  user : String := ""
  host : String := ""
  port : String := ""
  path : String := ""
  index : Nat := 0
deriving DecidableEq, Repr

/-- Function `_identity_to_string` from client.py: emits `proto://` iff proto is set,
`user@` iff user is set, the host, `:port` iff port is set, and the path. -/
def _identity_to_string (identity : Identity) : String :=
  (if identity.proto ≠ "" then identity.proto ++ "://" else "")
  ++ (if identity.user ≠ "" then identity.user ++ "@" else "")
  ++ identity.host
  ++ (if identity.port ≠ "" then ":" ++ identity.port else "")
  ++ (if identity.path ≠ "" then identity.path else "")

/-! ### The identity regular expression

`_identity_regexp` in client.py is
`^(?:(?P<proto>.*)://)?(?:(?P<user>.*)@)?(?P<host>.*?)(?::(?P<port>\w*))?(?P<path>/.*)?$`.
We embed Python's backtracking semantics for this concrete pattern: each
quantified piece enumerates its candidate splits in backtracking order and the
first candidate whose continuation succeeds wins.  `.` does not match a newline,
and `$` matches at the end of the string or just before a trailing newline. -/

/-- Cons a character onto the first component of a split. -/
def consFst (c : Char) (pr : List Char × List Char) : List Char × List Char :=
  (c :: pr.1, pr.2)

/-- First `some` result of `f` over a list, in order: the backtracking search
order of a regex engine. -/
def firstSome (f : α → Option β) : List α → Option β
  | [] => none
  | a :: l =>
    match f a with
    | some b => some b
    | none => firstSome f l

/-- Candidate splits for greedy `.*` followed by the literal delimiter `d`:
pairs `(p, rest)` with input `= p ++ d ++ rest` and `p` newline-free, longest
`p` first. -/
def greedyDelimSplits (d : List Char) : List Char → List (List Char × List Char)
  | [] => if d = [] then [([], [])] else []
  | c :: l =>
    (if c = '\n' then [] else (greedyDelimSplits d l).map (consFst c))
    ++ (if d.isPrefixOf (c :: l) then [([], (c :: l).drop d.length)] else [])

/-- Candidate splits for lazy `.*?`: shortest prefix first, newline-free. -/
def lazyDotSplits : List Char → List (List Char × List Char)
  | [] => [([], [])]
  | c :: l =>
    ([], c :: l) :: (if c = '\n' then [] else (lazyDotSplits l).map (consFst c))

/-- Candidate splits for greedy `.*`: longest newline-free prefix first. -/
def greedyDotSplits : List Char → List (List Char × List Char)
  | [] => [([], [])]
  | c :: l =>
    (if c = '\n' then [] else (greedyDotSplits l).map (consFst c)) ++ [([], c :: l)]

/-- Python's `\w` without the Unicode flag: ASCII letters, digits, underscore. -/
def isWordChar (c : Char) : Bool :=
  if ('a' ≤ c ∧ c ≤ 'z') ∨ ('A' ≤ c ∧ c ≤ 'Z') ∨ ('0' ≤ c ∧ c ≤ '9') ∨ c = '_'
  then true else false

/-- Candidate splits for greedy `\w*`: longest word-character prefix first. -/
def wordSplits : List Char → List (List Char × List Char)
  | [] => [([], [])]
  | c :: l =>
    (if isWordChar c then (wordSplits l).map (consFst c) else []) ++ [([], c :: l)]

/-- Python `$`: matches at the end of the string or before a trailing newline. -/
def dollarMatch : List Char → Bool
  | [] => true
  | [c] => c = '\n'
  | _ => false

/-- Matches `(?P<path>/.*)?$` against the remaining input; returns the captured
path group on success. -/
def matchPathDollar : List Char → Option (Option (List Char))
  | [] => if dollarMatch [] then some none else none
  | c :: rest =>
    if c = '/' then
      match firstSome
          (fun pr => if dollarMatch pr.2 then some (some ('/' :: pr.1)) else none)
          (greedyDotSplits rest) with
      | some g => some g
      | none => if dollarMatch (c :: rest) then some none else none
    else if dollarMatch (c :: rest) then some none else none

/-- Matches `(?::(?P<port>\w*))?(?P<path>/.*)?$` against the remaining input. -/
def matchPortPathDollar : List Char → Option (Option (List Char) × Option (List Char))
  | [] => (matchPathDollar []).map (fun pg => ((none : Option (List Char)), pg))
  | c :: rest =>
    if c = ':' then
      match firstSome
          (fun pr => (matchPathDollar pr.2).map (fun pg => (some pr.1, pg)))
          (wordSplits rest) with
      | some x => some x
      | none =>
        (matchPathDollar (c :: rest)).map (fun pg => ((none : Option (List Char)), pg))
    else (matchPathDollar (c :: rest)).map (fun pg => ((none : Option (List Char)), pg))

/-- Matches `(?P<host>.*?)(?::(?P<port>\w*))?(?P<path>/.*)?$`. -/
def matchHostRest (l : List Char) :
    Option (List Char × Option (List Char) × Option (List Char)) :=
  firstSome
    (fun pr => (matchPortPathDollar pr.2).map (fun x => (pr.1, x.1, x.2)))
    (lazyDotSplits l)

/-- Matches `(?:(?P<user>.*)@)?` followed by the host/port/path tail. -/
def matchUserRest (l : List Char) :
    Option (Option (List Char) × List Char × Option (List Char) × Option (List Char)) :=
  match firstSome
      (fun pr => (matchHostRest pr.2).map (fun x => (some pr.1, x.1, x.2.1, x.2.2)))
      (greedyDelimSplits ['@'] l) with
  | some x => some x
  | none =>
    (matchHostRest l).map
      (fun x => ((none : Option (List Char)), x.1, x.2.1, x.2.2))

/-- The capture groups of `_identity_regexp`; `host` always participates in a
successful match, the others are optional. -/
structure RegexGroups where
  proto : Option (List Char)
  user : Option (List Char)
  host : List Char
  port : Option (List Char)
  path : Option (List Char)
deriving DecidableEq, Repr

/-- Full anchored match of `_identity_regexp` against a string. -/
def matchIdentity (l : List Char) : Option RegexGroups :=
  match firstSome
      (fun pr => (matchUserRest pr.2).map
        (fun x => RegexGroups.mk (some pr.1) x.1 x.2.1 x.2.2.1 x.2.2.2))
      (greedyDelimSplits [':', '/', '/'] l) with
  | some g => some g
  | none =>
    (matchUserRest l).map
      (fun x => RegexGroups.mk none x.1 x.2.1 x.2.2.1 x.2.2.2)

/-- The value `_string_to_identity` stores for a group: the kwargs comprehension
drops `None` and empty strings, and protobuf string fields default to the empty
string, so an absent and an empty capture both end up as `""`. -/
def groupField : Option (List Char) → String
  | some l => String.mk l
  | none => ""

/-- Function `_string_to_identity` from client.py; `none` models the exception raised
when the anchored regex fails to match (`m.groupdict()` on `None`). -/
def _string_to_identity (s : String) : Option Identity :=
  (matchIdentity s.data).map (fun g =>
    { proto := groupField g.proto
      user := groupField g.user
      host := String.mk g.host
      port := groupField g.port
      path := groupField g.path
      index := 0 })

/-! ### Key-path derivation -/

/-- Encoding `struct.pack('<L', n)`: the 4-byte little-endian encoding. -/
def packLE4 (n : Nat) : List Nat :=
  [n % 256, n / 256 % 256, n / 65536 % 256, n / 16777216 % 256]

/-- Encoding `str.encode('ascii')`: the byte values of a string's characters. -/
def asciiBytes (s : String) : List Nat := s.data.map Char.toNat

/-- The little-endian 32-bit word at offset `i` of a byte list. -/
def leWord (d : List Nat) (i : Nat) : Nat :=
  d.getD i 0 + 256 * d.getD (i + 1) 0 + 65536 * d.getD (i + 2) 0
    + 16777216 * d.getD (i + 3) 0

/-- Modelled from the spec: `util.recv(s, '<LLLL')` (util.py is not under
src/) interprets the first 16 bytes of the stream as four little-endian
unsigned 32-bit integers. -/
def recvLLLL (d : List Nat) : List Nat :=
  [leWord d 0, leWord d 4, leWord d 8, leWord d 12]

/-- Function `_get_address` from client.py, parameterised by the device's fixed hash
function (`formats.hashfunc`, an external collaborator per the spec). -/
def _get_address (hashfunc : List Nat → List Nat) (identity : Identity) :
    List Nat :=
  let index := packLE4 identity.index
  let addr := index ++ asciiBytes (_identity_to_string identity)
  let digest := hashfunc addr
  let address_n := 13 :: recvLLLL digest
  address_n.map (fun value => 0x80000000 ||| value)

/-! ### SSH challenge blob codec -/

/-- Which runtime check failed: Python raises an exception in each case, and
the constructor records which one. -/
inductive Err where
  /-- `assert identity.proto == 'ssh'` -/
  | protocolMismatch
  /-- a length-prefixed frame read ran past the end of the buffer -/
  | malformedBlob
  /-- `assert not i.read()`: bytes left over after all fields -/
  | trailingBytes
  /-- `msg['user']` on a record with no such field -/
  | keyError
  /-- `assert public_key_blob == msg['public_key']['blob']` -/
  | integrityMismatch
  /-- `assert len(result.signature) == 65` -/
  | badSignatureLength
  /-- `assert result.signature[0] == b'\x00'` -/
  | badMarkerByte
  /-- the identity regex failed to match -/
  | parseError
  /-- `assert expected_address == address` -/
  | addressMismatch
  /-- `assert address == result.address` -/
  | resultAddressMismatch
  /-- `assert node.node.public_key == result.public_key` -/
  | resultPubkeyMismatch
deriving DecidableEq, Repr

/-- The record returned by the external `formats.parse_pubkey` collaborator. -/
structure PubkeyRec where
  blob : List Nat
  fingerprint : List Nat
deriving DecidableEq, Repr

/-- The parsed challenge blob: a Python dict with these optional keys. -/
structure SSHBlob where
  nonce : Option (List Nat) := none
  user : Option (List Nat) := none
  conn : Option (List Nat) := none
  auth : Option (List Nat) := none
  key_type : Option (List Nat) := none
  public_key : Option PubkeyRec := none
deriving DecidableEq, Repr

/-- Modelled from the spec: `util.read_frame` (util.py is not under src/)
reads a 4-byte big-endian length prefix and then that many raw bytes, failing
with a malformed-blob error when either read runs past the buffer end. -/
def read_frame (d : List Nat) : Except Err (List Nat × List Nat) :=
  match d with
  | b0 :: b1 :: b2 :: b3 :: rest =>
    let n := ((b0 * 256 + b1) * 256 + b2) * 256 + b3
    if n ≤ rest.length then .ok (rest.take n, rest.drop n)
    else .error .malformedBlob
  | _ => .error .malformedBlob

/-- Function `_parse_ssh_blob` from client.py, parameterised by the external
`formats.parse_pubkey` collaborator.  The two reserved single bytes are
skipped with `i.read(1)`, which does not fail at end-of-buffer. -/
def _parse_ssh_blob (parse_pubkey : List Nat → PubkeyRec) (data : List Nat) :
    Except Err SSHBlob :=
  if data = [] then .ok {} else
    match read_frame data with
    | .error e => .error e
    | .ok (nonce, i1) =>
      match read_frame (i1.drop 1) with
      | .error e => .error e
      | .ok (user, i3) =>
        match read_frame i3 with
        | .error e => .error e
        | .ok (conn, i4) =>
          match read_frame i4 with
          | .error e => .error e
          | .ok (auth, i5) =>
            match read_frame (i5.drop 1) with
            | .error e => .error e
            | .ok (key_type, i7) =>
              match read_frame i7 with
              | .error e => .error e
              | .ok (public_key, i8) =>
                if i8 = [] then
                  .ok { nonce := some nonce, user := some user,
                        conn := some conn, auth := some auth,
                        key_type := some key_type,
                        public_key := some (parse_pubkey public_key) }
                else .error .trailingBytes

/-! ### Signature processing -/

/-- Modelled from the spec: `util.bytes2num` (util.py is not under src/)
interprets a byte string as a big-endian unsigned integer. -/
def bytes2num (l : List Nat) : Nat := l.foldl (fun a b => a * 256 + b) 0

/-- Function `parse_signature` from client.py: drop byte 0 and read the remaining
bytes as two 32-byte big-endian integers. -/
def parse_signature (blob : List Nat) : Nat × Nat :=
  let sig := blob.drop 1
  (bytes2num (sig.take 32), bytes2num (sig.drop 32))

/-- Function `message_digest` from client.py, parameterised by the external
`formats.hashfunc` and `bitcoin.electrum_sig_hash` collaborators. -/
def message_digest (hashfunc electrum_sig_hash : List Nat → List Nat)
    (hidden visual : List Nat) : List Nat :=
  electrum_sig_hash (hashfunc hidden ++ hashfunc visual)

/-! ### Session orchestrator -/

/-- External collaborators from `formats` (out of scope per the spec): the
pubkey parser, decompression to a verifying key (modelled as raw bytes), and
serialization of a verifying key. -/
structure Formats where
  parse_pubkey : List Nat → PubkeyRec
  decompress_pubkey : List Nat → List Nat
  serialize_verifying_key : List Nat → List Nat

/-- The external signer's response to a `sign_identity` device call. -/
structure SigResult where
  public_key : List Nat
  signature : List Nat
  address : List Nat
deriving DecidableEq, Repr

/-- Method `Client.sign_ssh_challenge` from client.py.  The external signer is a
parameter taking the identity, the hidden challenge and the visual challenge;
the returned Bool records whether a signing request was issued to it.  Python
assertions and key errors are modelled as `Except` errors. -/
def sign_ssh_challenge (fm : Formats)
    (signer : Identity → List Nat → String → SigResult)
    (identity : Identity) (blob : List Nat) : Except Err (Nat × Nat) × Bool :=
  if identity.proto ≠ "ssh" then (.error .protocolMismatch, false)
  else
    match _parse_ssh_blob fm.parse_pubkey blob with
    | .error e => (.error e, false)
    | .ok msg =>
      match msg.user with
      | none => (.error .keyError, false)
      | some _ =>
        let visual := identity.path
        let result := signer identity blob visual
        let verifying_key := fm.decompress_pubkey result.public_key
        let public_key_blob := fm.serialize_verifying_key verifying_key
        match msg.public_key with
        | none => (.error .keyError, true)
        | some pk =>
          if public_key_blob ≠ pk.blob then (.error .integrityMismatch, true)
          else if result.signature.length ≠ 65 then
            (.error .badSignatureLength, true)
          else if result.signature.getD 0 0 ≠ 0 then
            (.error .badMarkerByte, true)
          else (.ok (parse_signature result.signature), true)

/-- Function `_validate_signature` from client.py: 0 when the external ECDSA
verification accepts the signature, 1 when it raises `BadSignatureError`. -/
def _validate_signature (fm : Formats)
    (verify_digest : List Nat → Nat × Nat → List Nat → Bool)
    (result : SigResult) (digest : List Nat) : Nat :=
  let verifying_key := fm.decompress_pubkey result.public_key
  let signature := parse_signature result.signature
  if verify_digest verifying_key signature digest then 0 else 1

/-- External collaborators of the generic signing flow. -/
structure SignIdentityDeps where
  hashfunc : List Nat → List Nat
  electrum_sig_hash : List Nat → List Nat
  pubkey_to_address : List Nat → List Nat
  get_public_node : List Nat → List Nat
  sign : Identity → List Nat → String → SigResult
  verify_digest : List Nat → Nat × Nat → List Nat → Bool

/-- Method `Client.sign_identity` from client.py (the generic Bitcoin-style flow).
`_strftime`/`_urandom` are injected exactly as in the source.  The result is
`(return value, signing request issued?, get_address display requested?)`. -/
def sign_identity (fm : Formats) (deps : SignIdentityDeps) (label : String)
    (expected_address : Option (List Nat)) (_strftime : String)
    (_urandom : List Nat) : Except Err Nat × Bool × Bool :=
  let visual := _strftime
  let hidden := _urandom
  match _string_to_identity label with
  | none => (.error .parseError, false, false)
  | some identity =>
    let derivation_path := _get_address deps.hashfunc identity
    let public_key := deps.get_public_node derivation_path
    let address := deps.pubkey_to_address public_key
    match expected_address with
    | none => (.ok 2, false, true)
    | some expected =>
      if expected ≠ address then (.error .addressMismatch, false, false)
      else
        let result := deps.sign identity hidden visual
        if address ≠ result.address then (.error .resultAddressMismatch, true, false)
        else if public_key ≠ result.public_key then
          (.error .resultPubkeyMismatch, true, false)
        else
          let digest := message_digest deps.hashfunc deps.electrum_sig_hash
            hidden (asciiBytes visual)
          (.ok (_validate_signature fm deps.verify_digest result digest), true, false)

/-! ### Specification-side definitions used by the claims -/

/-- Encoding `struct.pack('>L', n)`: the 4-byte big-endian encoding. -/
def packBE4 (n : Nat) : List Nat :=
  [n / 16777216 % 256, n / 65536 % 256, n / 256 % 256, n % 256]

/-- An SSH wire-format frame: 4-byte big-endian length prefix plus payload. -/
def frame (c : List Nat) : List Nat := packBE4 c.length ++ c

/-- A well-formed challenge blob: the six length-prefixed frames with the two
reserved single bytes at their fixed positions, and nothing after them. -/
def WellFormedBlob (d : List Nat) : Prop :=
  ∃ nonce r1 user conn auth r2 key_type public_key,
    d = frame nonce ++ r1 :: (frame user ++ (frame conn ++ (frame auth ++
        r2 :: (frame key_type ++ frame public_key)))) ∧
    nonce.length < 2 ^ 32 ∧ user.length < 2 ^ 32 ∧ conn.length < 2 ^ 32 ∧
    auth.length < 2 ^ 32 ∧ key_type.length < 2 ^ 32 ∧ public_key.length < 2 ^ 32

/-- Delimiter characters of the identity grammar. -/
def isDelim (c : Char) : Bool := c == ':' || c == '/' || c == '@' || c == '\n'

/-- A grammar component (proto, user or host): nonempty, delimiter-free. -/
def compOk (l : List Char) : Bool := !l.isEmpty && l.all (fun c => !isDelim c)

/-- A port: nonempty, word characters only. -/
def portOk (l : List Char) : Bool := !l.isEmpty && l.all isWordChar

/-- The path text after its leading `/`: free of `:`, `@` and newlines. -/
def pathOk (l : List Char) : Bool :=
  l.all (fun c => !(c == ':') && !(c == '@') && !(c == '\n'))

/-- Check an optional grammar component. -/
def optOk (P : List Char → Bool) : Option (List Char) → Bool
  | some l => P l
  | none => true

/-- The components of an identity string of the grammar
`[proto://][user@]host[:port][/path]`; `path` holds the text after the
leading `/`. -/
structure ValidParts where
  proto : Option (List Char)
  user : Option (List Char)
  host : List Char
  port : Option (List Char)
  path : Option (List Char)

/-- The `proto://` segment of the identity string. -/
def protoPart : Option (List Char) → List Char
  | some p => p ++ [':', '/', '/']
  | none => []

/-- The `user@` segment of the identity string. -/
def userPart : Option (List Char) → List Char
  | some u => u ++ ['@']
  | none => []

/-- The `:port` segment of the identity string. -/
def portPart : Option (List Char) → List Char
  | some q => ':' :: q
  | none => []

/-- The `/path` segment of the identity string. -/
def pathPart : Option (List Char) → List Char
  | some t => '/' :: t
  | none => []

/-- Assemble the components back into the identity string. -/
def renderParts (v : ValidParts) : List Char :=
  protoPart v.proto ++ userPart v.user ++ v.host ++ portPart v.port ++
    pathPart v.path

/-- All components satisfy their character restrictions. -/
def partsOk (v : ValidParts) : Bool :=
  optOk compOk v.proto && optOk compOk v.user && compOk v.host &&
  optOk portOk v.port && optOk pathOk v.path

/-- A valid identity string: one matching the grammar
`[proto://][user@]host[:port][/path]` with no delimiter-conflicting
characters outside the grammar's own structure. -/
def ValidIdentityString (s : String) : Prop :=
  ∃ v : ValidParts, partsOk v = true ∧ s.data = renderParts v

/-- A concrete `Formats` collaborator for witnesses: the pubkey parser keeps
the raw bytes as the blob, and decompression/serialization are identities. -/
def fmId : Formats :=
  { parse_pubkey := fun b => { blob := b, fingerprint := [] }
    decompress_pubkey := fun b => b
    serialize_verifying_key := fun b => b }

/-- A concrete external signer for witnesses, returning a fixed response. -/
def signerConst (pk sig addr : List Nat) :
    Identity → List Nat → String → SigResult :=
  fun _ _ _ => { public_key := pk, signature := sig, address := addr }

/-- A concrete well-formed challenge blob for witnesses: empty nonce, user,
conn, auth and key_type frames, zero reserved bytes, and a one-byte public
key frame `[1]`. -/
def blob0 : List Nat :=
  frame [] ++ 0 :: (frame [] ++ (frame [] ++ (frame [] ++
    0 :: (frame [] ++ frame [1]))))

/-- The parse of `blob0` under `fmId`. -/
def msg0 : SSHBlob :=
  { nonce := some [], user := some [], conn := some [], auth := some [],
    key_type := some [], public_key := some { blob := [1], fingerprint := [] } }

/-- A concrete ssh identity for witnesses. -/
def idSsh : Identity := { proto := "ssh", host := "h" }

/-- Concrete collaborators of the generic signing flow for witnesses. -/
def deps0 : SignIdentityDeps :=
  { hashfunc := fun _ => List.replicate 32 0
    electrum_sig_hash := fun b => b
    pubkey_to_address := fun _ => [7]
    get_public_node := fun _ => [5]
    sign := signerConst [5] (List.replicate 65 0) [7]
    verify_digest := fun _ _ _ => true }

/-- No occurrence of the literal `://` anywhere in the list. -/
def noCSS : List Char → Bool
  | [] => true
  | c :: l => !([':', '/', '/'].isPrefixOf (c :: l)) && noCSS l

/-! ### Helper lemmas -/

theorem bytes2num_aux (l : List Nat) (a M : Nat) (h : ∀ b ∈ l, b < 256)
    (ha : a < M) : l.foldl (fun x b => x * 256 + b) a < M * 256 ^ l.length := by
  induction l generalizing a M with
  | nil => simpa using ha
  | cons b l ih =>
    have hb : b < 256 := h b (by simp)
    have step : a * 256 + b < M * 256 := by
      calc a * 256 + b < a * 256 + 256 := by omega
        _ = (a + 1) * 256 := by ring
        _ ≤ M * 256 := Nat.mul_le_mul_right 256 ha
    have := ih (a * 256 + b) (M * 256) (fun x hx => h x (by simp [hx])) step
    calc (b :: l).foldl (fun x b => x * 256 + b) a
        = l.foldl (fun x b => x * 256 + b) (a * 256 + b) := rfl
      _ < M * 256 * 256 ^ l.length := this
      _ = M * 256 ^ (b :: l).length := by
          simp [List.length_cons, pow_succ]; ring

theorem bytes2num_lt (l : List Nat) (h : ∀ b ∈ l, b < 256) :
    bytes2num l < 256 ^ l.length :=
  by simpa using bytes2num_aux l 0 1 h Nat.one_pos

/-! ### Claim theorems (first batch) -/

/-- C1: the derived key path is `[13]` followed by the four values obtained by
hashing the seed buffer (4-byte little-endian `identity.index` concatenated
with the ASCII bytes of the formatted identity), reading the first 16 digest
bytes as four little-endian unsigned 32-bit integers, with the hardened bit
`0x80000000` OR'd into every one of the five elements including the 13. -/
theorem key_path_derivation_spec (hashfunc : List Nat → List Nat)
    (identity : Identity) :
    _get_address hashfunc identity =
      [0x80000000 ||| 13,
       0x80000000 ||| leWord (hashfunc (packLE4 identity.index ++
          asciiBytes (_identity_to_string identity))) 0,
       0x80000000 ||| leWord (hashfunc (packLE4 identity.index ++
          asciiBytes (_identity_to_string identity))) 4,
       0x80000000 ||| leWord (hashfunc (packLE4 identity.index ++
          asciiBytes (_identity_to_string identity))) 8,
       0x80000000 ||| leWord (hashfunc (packLE4 identity.index ++
          asciiBytes (_identity_to_string identity))) 12] := rfl

/-- C6: the empty challenge blob parses to the all-absent record, with no
error. -/
theorem parse_ssh_blob_empty_all_absent (parse_pubkey : List Nat → PubkeyRec) :
    _parse_ssh_blob parse_pubkey [] =
      .ok { nonce := none, user := none, conn := none, auth := none,
            key_type := none, public_key := none } := rfl

/-- C8: on a 65-byte signature blob of bytes, `parse_signature` drops byte 0
and returns the big-endian values of bytes 1..32 and 33..64, each below
`2 ^ 256`. -/
theorem parse_signature_be_bounds (blob : List Nat) (h65 : blob.length = 65)
    (hb : ∀ b ∈ blob, b < 256) :
    parse_signature blob =
      (bytes2num ((blob.drop 1).take 32), bytes2num ((blob.drop 1).drop 32)) ∧
    (parse_signature blob).1 < 2 ^ 256 ∧ (parse_signature blob).2 < 2 ^ 256 := by
  have hdrop : (blob.drop 1).length = 64 := by simp [h65]
  have htake : ((blob.drop 1).take 32).length = 32 := by simp [h65]
  have hdrop2 : ((blob.drop 1).drop 32).length = 32 := by simp [h65]
  have hpow : (256 : Nat) ^ 32 = 2 ^ 256 := by norm_num
  refine ⟨rfl, ?_, ?_⟩
  · have h1 : ∀ b ∈ (blob.drop 1).take 32, b < 256 := fun b hbmem =>
      hb b (List.mem_of_mem_drop (List.mem_of_mem_take hbmem))
    have := bytes2num_lt _ h1
    rw [htake, hpow] at this
    exact this
  · have h2 : ∀ b ∈ (blob.drop 1).drop 32, b < 256 := fun b hbmem =>
      hb b (List.mem_of_mem_drop (List.mem_of_mem_drop hbmem))
    have := bytes2num_lt _ h2
    rw [hdrop2, hpow] at this
    exact this

/-- Witness for C8 at the 65-byte all-zero blob. -/
theorem parse_signature_be_bounds_witness :
    (List.replicate 65 0).length = 65 ∧
    parse_signature (List.replicate 65 0) =
      (bytes2num (((List.replicate 65 (0 : Nat)).drop 1).take 32),
       bytes2num (((List.replicate 65 (0 : Nat)).drop 1).drop 32)) ∧
    (parse_signature (List.replicate 65 0)).1 < 2 ^ 256 ∧
    (parse_signature (List.replicate 65 0)).2 < 2 ^ 256 :=
  ⟨by decide, parse_signature_be_bounds (List.replicate 65 0) (by decide)
    (fun b hbmem => by
      have : b = 0 := List.eq_of_mem_replicate hbmem
      omega)⟩

/-- C9: there is an input on which the identity regex cannot capture a host,
and the parser fails instead of returning an identity. -/
theorem identity_parser_failure_exists :
    ∃ s : String, _string_to_identity s = none :=
  ⟨"a\nb", by decide⟩

/-! ### Frame decomposition lemmas -/

theorem read_frame_ok_decomp {d c r : List Nat} (hb : ∀ b ∈ d, b < 256)
    (h : read_frame d = .ok (c, r)) :
    d = frame c ++ r ∧ c.length < 2 ^ 32 ∧ (∀ b ∈ r, b < 256) := by
  match d with
  | [] => simp [read_frame] at h
  | [b0] => simp [read_frame] at h
  | [b0, b1] => simp [read_frame] at h
  | [b0, b1, b2] => simp [read_frame] at h
  | b0 :: b1 :: b2 :: b3 :: rest =>
    have hb0 : b0 < 256 := hb b0 (by simp)
    have hb1 : b1 < 256 := hb b1 (by simp)
    have hb2 : b2 < 256 := hb b2 (by simp)
    have hb3 : b3 < 256 := hb b3 (by simp)
    rw [read_frame] at h
    split at h
    · rename_i hle
      rw [Except.ok.injEq, Prod.mk.injEq] at h
      obtain ⟨hc, hr⟩ := h
      set n := ((b0 * 256 + b1) * 256 + b2) * 256 + b3 with hn
      have hlen : c.length = n := by
        rw [← hc, List.length_take]; omega
      have hpack : packBE4 c.length = [b0, b1, b2, b3] := by
        rw [hlen]
        simp only [packBE4, List.cons.injEq, and_true]
        refine ⟨?_, ?_, ?_, ?_⟩ <;> omega
      refine ⟨?_, ?_, ?_⟩
      · rw [frame, hpack, ← hc, ← hr]
        simp [List.take_append_drop]
      · omega
      · intro b hbm
        exact hb b (by
          simp only [List.mem_cons]
          right; right; right; right
          rw [← hr] at hbm
          exact List.mem_of_mem_drop hbm)
    · exact absurd h (by simp)

theorem read_frame_frame {c r : List Nat} (h : c.length < 2 ^ 32) :
    read_frame (frame c ++ r) = .ok (c, r) := by
  have hshape : frame c ++ r =
      c.length / 16777216 % 256 :: c.length / 65536 % 256 ::
      c.length / 256 % 256 :: c.length % 256 :: (c ++ r) := by
    simp [frame, packBE4]
  rw [hshape, read_frame]
  have hn : ((c.length / 16777216 % 256 * 256 + c.length / 65536 % 256) * 256 +
      c.length / 256 % 256) * 256 + c.length % 256 = c.length := by omega
  rw [hn]
  rw [if_pos (by simp)]
  congr 1
  rw [Prod.mk.injEq]
  constructor
  · exact List.take_left c r
  · exact List.drop_left c r

theorem parse_ok_decomp {pk : List Nat → PubkeyRec} {d : List Nat} {msg : SSHBlob}
    (hd : d ≠ []) (hb : ∀ b ∈ d, b < 256)
    (h : _parse_ssh_blob pk d = .ok msg) :
    ∃ nonce r1 user conn auth r2 key_type public_key,
      d = frame nonce ++ r1 :: (frame user ++ (frame conn ++ (frame auth ++
          r2 :: (frame key_type ++ frame public_key)))) ∧
      nonce.length < 2 ^ 32 ∧ user.length < 2 ^ 32 ∧ conn.length < 2 ^ 32 ∧
      auth.length < 2 ^ 32 ∧ key_type.length < 2 ^ 32 ∧
      public_key.length < 2 ^ 32 ∧
      msg = { nonce := some nonce, user := some user, conn := some conn,
              auth := some auth, key_type := some key_type,
              public_key := some (pk public_key) } := by
  unfold _parse_ssh_blob at h
  rw [if_neg hd] at h
  cases h1 : read_frame d with
  | error e => simp only [h1] at h; exact Except.noConfusion h
  | ok pr1 =>
    obtain ⟨nonce, i1⟩ := pr1
    simp only [h1] at h
    obtain ⟨hd1, hn1, hb1⟩ := read_frame_ok_decomp hb h1
    cases h2 : read_frame (i1.drop 1) with
    | error e => simp only [h2] at h; exact Except.noConfusion h
    | ok pr2 =>
      obtain ⟨user, i3⟩ := pr2
      simp only [h2] at h
      have hb1' : ∀ b ∈ i1.drop 1, b < 256 := fun b hbm =>
        hb1 b (List.mem_of_mem_drop hbm)
      obtain ⟨hd2, hn2, hb2⟩ := read_frame_ok_decomp hb1' h2
      cases h3 : read_frame i3 with
      | error e => simp only [h3] at h; exact Except.noConfusion h
      | ok pr3 =>
        obtain ⟨conn, i4⟩ := pr3
        simp only [h3] at h
        obtain ⟨hd3, hn3, hb3⟩ := read_frame_ok_decomp hb2 h3
        cases h4 : read_frame i4 with
        | error e => simp only [h4] at h; exact Except.noConfusion h
        | ok pr4 =>
          obtain ⟨auth, i5⟩ := pr4
          simp only [h4] at h
          obtain ⟨hd4, hn4, hb4⟩ := read_frame_ok_decomp hb3 h4
          cases h5 : read_frame (i5.drop 1) with
          | error e => simp only [h5] at h; exact Except.noConfusion h
          | ok pr5 =>
            obtain ⟨key_type, i7⟩ := pr5
            simp only [h5] at h
            have hb4' : ∀ b ∈ i5.drop 1, b < 256 := fun b hbm =>
              hb4 b (List.mem_of_mem_drop hbm)
            obtain ⟨hd5, hn5, hb5⟩ := read_frame_ok_decomp hb4' h5
            cases h6 : read_frame i7 with
            | error e => simp only [h6] at h; exact Except.noConfusion h
            | ok pr6 =>
              obtain ⟨public_key, i8⟩ := pr6
              simp only [h6] at h
              obtain ⟨hd6, hn6, hb6⟩ := read_frame_ok_decomp hb5 h6
              by_cases h8 : i8 = []
              · rw [if_pos h8] at h
                rw [Except.ok.injEq] at h
                -- i1 and i5 must be nonempty for their drop-1 to parse
                have hi1 : i1 ≠ [] := by
                  intro hnil
                  rw [hnil] at hd2
                  simp [frame, packBE4] at hd2
                have hi5 : i5 ≠ [] := by
                  intro hnil
                  rw [hnil] at hd5
                  simp [frame, packBE4] at hd5
                obtain ⟨r1, i1', hi1'⟩ := List.exists_cons_of_ne_nil hi1
                obtain ⟨r2, i5', hi5'⟩ := List.exists_cons_of_ne_nil hi5
                refine ⟨nonce, r1, user, conn, auth, r2, key_type, public_key,
                  ?_, hn1, hn2, hn3, hn4, hn5, hn6, h.symm⟩
                rw [hd1, hi1']
                have : i1' = i1.drop 1 := by rw [hi1']; rfl
                rw [this, hd2, hd3, hd4, hi5']
                have h5' : i5' = i5.drop 1 := by rw [hi5']; rfl
                rw [h5', hd5, hd6, h8]
                simp
              · rw [if_neg h8] at h
                simp at h

theorem read_frame_frame_nil {c : List Nat} (h : c.length < 2 ^ 32) :
    read_frame (frame c) = .ok (c, []) := by
  have h0 : read_frame (frame c ++ ([] : List Nat)) = .ok (c, []) :=
    read_frame_frame h
  simpa using h0

theorem parse_wellformed_ok (pk : List Nat → PubkeyRec)
    {nonce user conn auth key_type public_key : List Nat} (r1 r2 : Nat)
    (hn1 : nonce.length < 2 ^ 32) (hn2 : user.length < 2 ^ 32)
    (hn3 : conn.length < 2 ^ 32) (hn4 : auth.length < 2 ^ 32)
    (hn5 : key_type.length < 2 ^ 32) (hn6 : public_key.length < 2 ^ 32) :
    _parse_ssh_blob pk (frame nonce ++ r1 :: (frame user ++ (frame conn ++
        (frame auth ++ r2 :: (frame key_type ++ frame public_key))))) =
      .ok { nonce := some nonce, user := some user, conn := some conn,
            auth := some auth, key_type := some key_type,
            public_key := some (pk public_key) } := by
  have hne : frame nonce ++ r1 :: (frame user ++ (frame conn ++
      (frame auth ++ r2 :: (frame key_type ++ frame public_key)))) ≠ [] := by
    simp [frame, packBE4]
  unfold _parse_ssh_blob
  rw [if_neg hne]
  simp only [read_frame_frame hn1, List.drop_succ_cons, List.drop_zero,
    read_frame_frame hn2, read_frame_frame hn3, read_frame_frame hn4,
    read_frame_frame hn5, read_frame_frame_nil hn6]
  simp

theorem parse_ok_fields {pk : List Nat → PubkeyRec} {d : List Nat}
    {msg : SSHBlob} (h : _parse_ssh_blob pk d = .ok msg) :
    msg = {} ∨ ∃ n u c a k p,
      msg = { nonce := some n, user := some u, conn := some c,
              auth := some a, key_type := some k, public_key := some p } := by
  by_cases hd : d = []
  · left
    rw [hd] at h
    unfold _parse_ssh_blob at h
    rw [if_pos rfl] at h
    rw [Except.ok.injEq] at h
    exact h.symm
  · right
    unfold _parse_ssh_blob at h
    rw [if_neg hd] at h
    cases h1 : read_frame d with
    | error e => simp only [h1] at h; exact Except.noConfusion h
    | ok pr1 =>
      obtain ⟨nonce, i1⟩ := pr1
      simp only [h1] at h
      cases h2 : read_frame (i1.drop 1) with
      | error e => simp only [h2] at h; exact Except.noConfusion h
      | ok pr2 =>
        obtain ⟨user, i3⟩ := pr2
        simp only [h2] at h
        cases h3 : read_frame i3 with
        | error e => simp only [h3] at h; exact Except.noConfusion h
        | ok pr3 =>
          obtain ⟨conn, i4⟩ := pr3
          simp only [h3] at h
          cases h4 : read_frame i4 with
          | error e => simp only [h4] at h; exact Except.noConfusion h
          | ok pr4 =>
            obtain ⟨auth, i5⟩ := pr4
            simp only [h4] at h
            cases h5 : read_frame (i5.drop 1) with
            | error e => simp only [h5] at h; exact Except.noConfusion h
            | ok pr5 =>
              obtain ⟨key_type, i7⟩ := pr5
              simp only [h5] at h
              cases h6 : read_frame i7 with
              | error e => simp only [h6] at h; exact Except.noConfusion h
              | ok pr6 =>
                obtain ⟨public_key, i8⟩ := pr6
                simp only [h6] at h
                by_cases h8 : i8 = []
                · rw [if_pos h8, Except.ok.injEq] at h
                  exact ⟨nonce, user, conn, auth, key_type, pk public_key, h.symm⟩
                · rw [if_neg h8] at h
                  exact Except.noConfusion h

/-- C5: for a non-empty byte string, the challenge blob parser succeeds
exactly on a well-formed frame sequence with zero trailing bytes; a truncated
frame read or leftover bytes make it fail. -/
theorem parse_ssh_blob_ok_iff_wellformed (pk : List Nat → PubkeyRec)
    (d : List Nat) (hd : d ≠ []) (hb : ∀ b ∈ d, b < 256) :
    (∃ msg, _parse_ssh_blob pk d = .ok msg) ↔ WellFormedBlob d := by
  constructor
  · rintro ⟨msg, h⟩
    obtain ⟨nonce, r1, user, conn, auth, r2, kt, pkb, hdec,
      b1, b2, b3, b4, b5, b6, -⟩ := parse_ok_decomp hd hb h
    exact ⟨nonce, r1, user, conn, auth, r2, kt, pkb, hdec,
      b1, b2, b3, b4, b5, b6⟩
  · rintro ⟨nonce, r1, user, conn, auth, r2, kt, pkb, hdec,
      b1, b2, b3, b4, b5, b6⟩
    rw [hdec]
    exact ⟨_, parse_wellformed_ok pk r1 r2 b1 b2 b3 b4 b5 b6⟩

/-- Witness for C5 at the concrete well-formed blob `blob0`. -/
theorem parse_ssh_blob_ok_iff_wellformed_witness :
    blob0 ≠ [] ∧ (∀ b ∈ blob0, b < 256) ∧
    ((∃ msg, _parse_ssh_blob fmId.parse_pubkey blob0 = .ok msg) ↔
      WellFormedBlob blob0) :=
  ⟨by decide, by decide,
    parse_ssh_blob_ok_iff_wellformed fmId.parse_pubkey blob0
      (by decide) (by decide)⟩

/-- C3: when the serialized form of the signer-returned public key differs
from the public key claimed in the challenge blob, `sign_ssh_challenge`
aborts with the integrity error and never returns an `(r, s)` pair. -/
theorem ssh_pubkey_mismatch_aborts (fm : Formats)
    (signer : Identity → List Nat → String → SigResult) (identity : Identity)
    (blob : List Nat) (msg : SSHBlob) (pkrec : PubkeyRec)
    (hp : identity.proto = "ssh")
    (hparse : _parse_ssh_blob fm.parse_pubkey blob = .ok msg)
    (hpk : msg.public_key = some pkrec)
    (hmm : fm.serialize_verifying_key (fm.decompress_pubkey
        (signer identity blob identity.path).public_key) ≠ pkrec.blob) :
    (sign_ssh_challenge fm signer identity blob).1 = .error .integrityMismatch ∧
    ∀ rs : Nat × Nat,
      (sign_ssh_challenge fm signer identity blob).1 ≠ .ok rs := by
  have huser : ∃ u, msg.user = some u := by
    rcases parse_ok_fields hparse with hempty | ⟨n, u, c, a, k, p, hm⟩
    · rw [hempty] at hpk
      simp at hpk
    · exact ⟨u, by rw [hm]⟩
  obtain ⟨u, hu⟩ := huser
  have hmain : sign_ssh_challenge fm signer identity blob =
      (.error .integrityMismatch, true) := by
    unfold sign_ssh_challenge
    rw [if_neg (by simp [hp])]
    simp only [hparse, hu, hpk]
    rw [if_pos hmm]
  rw [hmain]
  exact ⟨rfl, fun rs => by simp⟩

/-- Witness for C3: the blob claims public key `[1]` but the signer answers
with `[2]`. -/
theorem ssh_pubkey_mismatch_aborts_witness :
    idSsh.proto = "ssh" ∧
    _parse_ssh_blob fmId.parse_pubkey blob0 = .ok msg0 ∧
    msg0.public_key = some { blob := [1], fingerprint := [] } ∧
    fmId.serialize_verifying_key (fmId.decompress_pubkey
      (signerConst [2] [] [] idSsh blob0 idSsh.path).public_key) ≠ [1] ∧
    ((sign_ssh_challenge fmId (signerConst [2] [] []) idSsh blob0).1 =
        .error .integrityMismatch ∧
      ∀ rs : Nat × Nat,
        (sign_ssh_challenge fmId (signerConst [2] [] []) idSsh blob0).1 ≠
          .ok rs) :=
  ⟨rfl, rfl, rfl, by decide,
    ssh_pubkey_mismatch_aborts fmId (signerConst [2] [] []) idSsh blob0
      msg0 { blob := [1], fingerprint := [] } rfl rfl rfl (by decide)⟩

/-- C4: with the public keys matching, the signature blob must have length
exactly 65 and marker byte zero — otherwise `sign_ssh_challenge` rejects it
before returning — and a blob of 65 zero bytes passes the marker check and
yields `r = 0, s = 0`. -/
theorem ssh_signature_shape_checks (fm : Formats)
    (signer : Identity → List Nat → String → SigResult) (identity : Identity)
    (blob : List Nat) (msg : SSHBlob) (pkrec : PubkeyRec)
    (hp : identity.proto = "ssh")
    (hparse : _parse_ssh_blob fm.parse_pubkey blob = .ok msg)
    (hpk : msg.public_key = some pkrec)
    (hmatch : fm.serialize_verifying_key (fm.decompress_pubkey
        (signer identity blob identity.path).public_key) = pkrec.blob) :
    ((signer identity blob identity.path).signature.length ≠ 65 →
      (sign_ssh_challenge fm signer identity blob).1 =
        .error .badSignatureLength) ∧
    ((signer identity blob identity.path).signature.length = 65 →
     (signer identity blob identity.path).signature.getD 0 0 ≠ 0 →
      (sign_ssh_challenge fm signer identity blob).1 =
        .error .badMarkerByte) ∧
    ((signer identity blob identity.path).signature = List.replicate 65 0 →
      (sign_ssh_challenge fm signer identity blob).1 = .ok (0, 0)) := by
  have huser : ∃ u, msg.user = some u := by
    rcases parse_ok_fields hparse with hempty | ⟨n, u, c, a, k, p, hm⟩
    · rw [hempty] at hpk
      simp at hpk
    · exact ⟨u, by rw [hm]⟩
  obtain ⟨u, hu⟩ := huser
  have hred : sign_ssh_challenge fm signer identity blob =
      (if (signer identity blob identity.path).signature.length ≠ 65 then
        (.error .badSignatureLength, true)
      else if (signer identity blob identity.path).signature.getD 0 0 ≠ 0 then
        (.error .badMarkerByte, true)
      else
        (.ok (parse_signature (signer identity blob identity.path).signature),
          true)) := by
    unfold sign_ssh_challenge
    rw [if_neg (by simp [hp])]
    simp only [hparse, hu, hpk]
    rw [if_neg (by simp [hmatch])]
  refine ⟨?_, ?_, ?_⟩
  · intro h65
    rw [hred, if_pos h65]
  · intro h65 hmk
    rw [hred, if_neg (by simp [h65]), if_pos hmk]
  · intro hrep
    rw [hred, hrep]
    norm_num
    decide

/-- Witness for C4: matching public key `[1]` and a 65-zero-byte signature,
so the marker check passes and `(r, s) = (0, 0)`. -/
theorem ssh_signature_shape_checks_witness :
    idSsh.proto = "ssh" ∧
    _parse_ssh_blob fmId.parse_pubkey blob0 = .ok msg0 ∧
    msg0.public_key = some { blob := [1], fingerprint := [] } ∧
    fmId.serialize_verifying_key (fmId.decompress_pubkey
      (signerConst [1] (List.replicate 65 0) [] idSsh blob0
        idSsh.path).public_key) = [1] ∧
    (((signerConst [1] (List.replicate 65 0) [] idSsh blob0
          idSsh.path).signature.length ≠ 65 →
        (sign_ssh_challenge fmId (signerConst [1] (List.replicate 65 0) [])
          idSsh blob0).1 = .error .badSignatureLength) ∧
      ((signerConst [1] (List.replicate 65 0) [] idSsh blob0
          idSsh.path).signature.length = 65 →
       (signerConst [1] (List.replicate 65 0) [] idSsh blob0
          idSsh.path).signature.getD 0 0 ≠ 0 →
        (sign_ssh_challenge fmId (signerConst [1] (List.replicate 65 0) [])
          idSsh blob0).1 = .error .badMarkerByte) ∧
      ((signerConst [1] (List.replicate 65 0) [] idSsh blob0
          idSsh.path).signature = List.replicate 65 0 →
        (sign_ssh_challenge fmId (signerConst [1] (List.replicate 65 0) [])
          idSsh blob0).1 = .ok (0, 0))) :=
  ⟨rfl, rfl, rfl, rfl,
    ssh_signature_shape_checks fmId (signerConst [1] (List.replicate 65 0) [])
      idSsh blob0 msg0 { blob := [1], fingerprint := [] } rfl rfl rfl rfl⟩

/-- C10: on the empty challenge blob, `sign_ssh_challenge` fails looking up
the absent `user` field of the all-absent parsed record, before any signing
request reaches the external signer — even though the blob parser itself
accepts empty input. -/
theorem ssh_empty_blob_fails_before_signing (fm : Formats)
    (signer : Identity → List Nat → String → SigResult) (identity : Identity)
    (hp : identity.proto = "ssh") :
    sign_ssh_challenge fm signer identity [] = (.error .keyError, false) := by
  unfold sign_ssh_challenge
  rw [if_neg (by simp [hp])]
  rfl

/-- Witness for C10 at a concrete ssh identity and signer. -/
theorem ssh_empty_blob_fails_before_signing_witness :
    idSsh.proto = "ssh" ∧
    sign_ssh_challenge fmId (signerConst [] [] []) idSsh [] =
      (.error .keyError, false) :=
  ⟨rfl,
    ssh_empty_blob_fails_before_signing fmId (signerConst [] [] []) idSsh rfl⟩

/-- C7: the generic signing flow returns 2 and issues no signing request when
no expected address is supplied; with the expected address equal to the
computed one and the signer's response passing the integrity checks, it
returns 0 when the signature verifies against the computed digest and 1
(without raising) when cryptographic verification fails. -/
theorem sign_identity_return_codes (fm : Formats) (deps : SignIdentityDeps)
    (label : String) (identity : Identity) (st : String) (ur : List Nat)
    (hid : _string_to_identity label = some identity)
    (haddr : deps.pubkey_to_address (deps.get_public_node
        (_get_address deps.hashfunc identity)) =
      (deps.sign identity ur st).address)
    (hpk : deps.get_public_node (_get_address deps.hashfunc identity) =
      (deps.sign identity ur st).public_key) :
    sign_identity fm deps label none st ur = (.ok 2, false, true) ∧
    (deps.verify_digest
        (fm.decompress_pubkey (deps.sign identity ur st).public_key)
        (parse_signature (deps.sign identity ur st).signature)
        (message_digest deps.hashfunc deps.electrum_sig_hash ur
          (asciiBytes st)) = true →
      sign_identity fm deps label
        (some (deps.pubkey_to_address (deps.get_public_node
          (_get_address deps.hashfunc identity)))) st ur =
        (.ok 0, true, false)) ∧
    (deps.verify_digest
        (fm.decompress_pubkey (deps.sign identity ur st).public_key)
        (parse_signature (deps.sign identity ur st).signature)
        (message_digest deps.hashfunc deps.electrum_sig_hash ur
          (asciiBytes st)) = false →
      sign_identity fm deps label
        (some (deps.pubkey_to_address (deps.get_public_node
          (_get_address deps.hashfunc identity)))) st ur =
        (.ok 1, true, false)) := by
  have hred : sign_identity fm deps label
      (some (deps.pubkey_to_address (deps.get_public_node
        (_get_address deps.hashfunc identity)))) st ur =
      (.ok (if deps.verify_digest
          (fm.decompress_pubkey (deps.sign identity ur st).public_key)
          (parse_signature (deps.sign identity ur st).signature)
          (message_digest deps.hashfunc deps.electrum_sig_hash ur
            (asciiBytes st)) then 0 else 1), true, false) := by
    unfold sign_identity
    simp only [hid]
    rw [if_neg (by simp)]
    rw [if_neg (by simp [haddr])]
    rw [if_neg (by simp [hpk])]
    unfold _validate_signature
    rfl
  refine ⟨?_, ?_, ?_⟩
  · unfold sign_identity
    simp only [hid]
  · intro hv
    rw [hred, if_pos hv]
  · intro hv
    rw [hred, if_neg (by simp [hv])]

/-- Witness for C7 at a concrete label and collaborators. -/
theorem sign_identity_return_codes_witness :
    _string_to_identity "h" = some { host := "h" } ∧
    deps0.pubkey_to_address (deps0.get_public_node
      (_get_address deps0.hashfunc { host := "h" })) =
      (deps0.sign { host := "h" } [] "t").address ∧
    deps0.get_public_node (_get_address deps0.hashfunc { host := "h" }) =
      (deps0.sign { host := "h" } [] "t").public_key ∧
    (sign_identity fmId deps0 "h" none "t" [] = (.ok 2, false, true) ∧
     (deps0.verify_digest
        (fmId.decompress_pubkey (deps0.sign { host := "h" } [] "t").public_key)
        (parse_signature (deps0.sign { host := "h" } [] "t").signature)
        (message_digest deps0.hashfunc deps0.electrum_sig_hash []
          (asciiBytes "t")) = true →
       sign_identity fmId deps0 "h"
         (some (deps0.pubkey_to_address (deps0.get_public_node
           (_get_address deps0.hashfunc { host := "h" })))) "t" [] =
         (.ok 0, true, false)) ∧
     (deps0.verify_digest
        (fmId.decompress_pubkey (deps0.sign { host := "h" } [] "t").public_key)
        (parse_signature (deps0.sign { host := "h" } [] "t").signature)
        (message_digest deps0.hashfunc deps0.electrum_sig_hash []
          (asciiBytes "t")) = false →
       sign_identity fmId deps0 "h"
         (some (deps0.pubkey_to_address (deps0.get_public_node
           (_get_address deps0.hashfunc { host := "h" })))) "t" [] =
         (.ok 1, true, false))) :=
  ⟨by decide, rfl, rfl,
    sign_identity_return_codes fmId deps0 "h" { host := "h" } "t" []
      (by decide) rfl rfl⟩

/-! ### Backtracking-search lemmas -/

theorem firstSome_cons_some {f : α → Option β} {a : α} {l : List α} {b : β}
    (h : f a = some b) : firstSome f (a :: l) = some b := by
  simp [firstSome, h]

theorem firstSome_cons_none {f : α → Option β} {a : α} {l : List α}
    (h : f a = none) : firstSome f (a :: l) = firstSome f l := by
  simp [firstSome, h]

theorem firstSome_map {f : β → Option γ} {g : α → β} {l : List α} :
    firstSome f (l.map g) = firstSome (fun a => f (g a)) l := by
  induction l with
  | nil => rfl
  | cons a l ih =>
    simp only [List.map_cons, firstSome]
    cases f (g a) <;> simp [ih]

theorem firstSome_eq_none {f : α → Option β} {l : List α}
    (h : ∀ x ∈ l, f x = none) : firstSome f l = none := by
  induction l with
  | nil => rfl
  | cons a l ih =>
    rw [firstSome_cons_none (h a (by simp))]
    exact ih (fun x hx => h x (by simp [hx]))

theorem isWordChar_not_delim {c : Char} (h : isWordChar c = true) :
    c ≠ ':' ∧ c ≠ '/' ∧ c ≠ '@' ∧ c ≠ '\n' := by
  refine ⟨?_, ?_, ?_, ?_⟩ <;> intro heq <;> rw [heq] at h <;>
    exact absurd h (by decide)

theorem lazyDotSplits_head (l : List Char) :
    ∃ rest, lazyDotSplits l = ([], l) :: rest := by
  cases l with
  | nil => exact ⟨[], rfl⟩
  | cons c t => exact ⟨_, rfl⟩

theorem greedyDotSplits_head {t : List Char} (h : '\n' ∉ t) :
    ∃ rest, greedyDotSplits t = (t, []) :: rest := by
  induction t with
  | nil => exact ⟨[], rfl⟩
  | cons c t ih =>
    have hc : ¬(c = '\n') := fun he => h (by simp [he])
    obtain ⟨rest, hr⟩ := ih (fun hm => h (by simp [hm]))
    refine ⟨List.map (consFst c) rest ++ [([], c :: t)], ?_⟩
    simp [greedyDotSplits, hc, hr, consFst]

theorem wordSplits_head {q r : List Char} (hq : ∀ c ∈ q, isWordChar c = true)
    (hr : r = [] ∨ ∃ c r', r = c :: r' ∧ isWordChar c = false) :
    ∃ rest, wordSplits (q ++ r) = (q, r) :: rest := by
  induction q with
  | nil =>
    rcases hr with rfl | ⟨c, r', rfl, hc⟩
    · exact ⟨[], rfl⟩
    · refine ⟨[], ?_⟩
      simp [wordSplits, hc]
  | cons a q ih =>
    have ha : isWordChar a = true := hq a (by simp)
    obtain ⟨rest, hrest⟩ := ih (fun c hc => hq c (by simp [hc]))
    refine ⟨List.map (consFst a) rest ++ [([], a :: (q ++ r))], ?_⟩
    simp [wordSplits, ha, hrest, consFst]

theorem gds_at_none {l : List Char} (h : '@' ∉ l) :
    greedyDelimSplits ['@'] l = [] := by
  induction l with
  | nil => rfl
  | cons c t ih =>
    have hc : ¬(c = '@') := fun he => h (by simp [he])
    have hpre : ['@'].isPrefixOf (c :: t) = false := by
      simp [List.isPrefixOf]
      exact fun h' => hc h'.symm
    have ih' := ih (fun hm => h (by simp [hm]))
    rw [greedyDelimSplits, ih']
    simp [hpre]

theorem gds_at_unique (r : List Char) (hr : '@' ∉ r) :
    ∀ u, '@' ∉ u → '\n' ∉ u →
    greedyDelimSplits ['@'] (u ++ '@' :: r) = [(u, r)] := by
  intro u
  induction u with
  | nil =>
    intro _ _
    rw [List.nil_append, greedyDelimSplits, gds_at_none hr]
    have h1 : ¬(('@' : Char) = '\n') := by decide
    have hpre : ['@'].isPrefixOf ('@' :: r) = true := by
      simp [List.isPrefixOf]
    simp [h1, hpre]
  | cons c u ih =>
    intro hu hnl
    have hc : ¬(c = '@') := fun he => hu (by simp [he])
    have hcn : ¬(c = '\n') := fun he => hnl (by simp [he])
    have hpre : ['@'].isPrefixOf (c :: (u ++ '@' :: r)) = false := by
      simp [List.isPrefixOf]
      exact fun h' => hc h'.symm
    have ih' := ih (fun hm => hu (by simp [hm])) (fun hm => hnl (by simp [hm]))
    rw [List.cons_append, greedyDelimSplits, ih']
    simp [hcn, hpre, consFst]

theorem gds_proto_none (l : List Char) (h : noCSS l = true) :
    greedyDelimSplits [':', '/', '/'] l = [] := by
  induction l with
  | nil => rfl
  | cons c t ih =>
    rw [noCSS, Bool.and_eq_true, Bool.not_eq_true'] at h
    obtain ⟨h1, h2⟩ := h
    rw [greedyDelimSplits, ih h2]
    simp [h1]

theorem noCSS_append {l₁ : List Char} (l₂ : List Char) (h : ':' ∉ l₁) :
    noCSS (l₁ ++ l₂) = noCSS l₂ := by
  induction l₁ with
  | nil => rfl
  | cons c t ih =>
    have hc : ¬(c = ':') := fun he => h (by simp [he])
    have hpre : [':', '/', '/'].isPrefixOf (c :: (t ++ l₂)) = false := by
      simp [List.isPrefixOf]
      exact fun h' => absurd h'.symm hc
    rw [List.cons_append, noCSS, hpre, ih (fun hm => h (by simp [hm]))]
    simp

theorem gds_proto_unique (r : List Char)
    (hr : noCSS ('/' :: '/' :: r) = true) :
    ∀ p, ':' ∉ p → '\n' ∉ p →
    greedyDelimSplits [':', '/', '/'] (p ++ ':' :: '/' :: '/' :: r) =
      [(p, r)] := by
  intro p
  induction p with
  | nil =>
    intro _ _
    rw [List.nil_append, greedyDelimSplits, gds_proto_none _ hr]
    have h1 : ¬((':' : Char) = '\n') := by decide
    have hpre : [':', '/', '/'].isPrefixOf (':' :: '/' :: '/' :: r) = true := by
      simp [List.isPrefixOf]
    simp [h1, hpre]
  | cons c p ih =>
    intro hp hnl
    have hc : ¬(c = ':') := fun he => hp (by simp [he])
    have hcn : ¬(c = '\n') := fun he => hnl (by simp [he])
    have hpre : [':', '/', '/'].isPrefixOf
        (c :: (p ++ ':' :: '/' :: '/' :: r)) = false := by
      simp [List.isPrefixOf]
      exact fun h' => absurd h'.symm hc
    have ih' := ih (fun hm => hp (by simp [hm])) (fun hm => hnl (by simp [hm]))
    rw [List.cons_append, greedyDelimSplits, ih']
    simp [hcn, hpre, consFst]

/-! ### Matcher stage lemmas -/

theorem compOk_spec {l : List Char} (h : compOk l = true) :
    l ≠ [] ∧ ∀ c ∈ l, c ≠ ':' ∧ c ≠ '/' ∧ c ≠ '@' ∧ c ≠ '\n' := by
  rw [compOk, Bool.and_eq_true, List.all_eq_true] at h
  refine ⟨by simpa using h.1, fun c hc => ?_⟩
  have := h.2 c hc
  simp [isDelim] at this
  exact ⟨this.1.1.1, this.1.1.2, this.1.2, this.2⟩

theorem portOk_spec {q : List Char} (h : portOk q = true) :
    q ≠ [] ∧ ∀ c ∈ q, isWordChar c = true := by
  rw [portOk, Bool.and_eq_true, List.all_eq_true] at h
  exact ⟨by simpa using h.1, fun c hc => h.2 c hc⟩

theorem pathOk_spec {t : List Char} (h : pathOk t = true) :
    ∀ c ∈ t, c ≠ ':' ∧ c ≠ '@' ∧ c ≠ '\n' := by
  intro c hc
  rw [pathOk, List.all_eq_true] at h
  have := h c hc
  simp at this
  exact ⟨this.1.1, this.1.2, this.2⟩

theorem matchPathDollar_not_slash {c : Char} {l : List Char}
    (h2 : c ≠ '/') (h3 : c ≠ '\n') : matchPathDollar (c :: l) = none := by
  have hd : dollarMatch (c :: l) = false := by
    cases l <;> simp [dollarMatch, h3]
  simp only [matchPathDollar]
  rw [if_neg h2]
  simp [hd]

theorem matchPortPathDollar_not_delim {c : Char} {l : List Char}
    (h1 : c ≠ ':') (h2 : c ≠ '/') (h3 : c ≠ '\n') :
    matchPortPathDollar (c :: l) = none := by
  simp only [matchPortPathDollar]
  rw [if_neg h1, matchPathDollar_not_slash h2 h3]
  rfl

theorem matchPathDollar_path {t : List Char} (h : '\n' ∉ t) :
    matchPathDollar ('/' :: t) = some (some ('/' :: t)) := by
  obtain ⟨rest, hr⟩ := greedyDotSplits_head h
  have hf : (fun pr : List Char × List Char =>
      if dollarMatch pr.2 then some (some ('/' :: pr.1)) else none)
      (t, []) = some (some ('/' :: t)) := by
    simp [dollarMatch]
  have hfs : firstSome (fun pr : List Char × List Char =>
      if dollarMatch pr.2 then some (some ('/' :: pr.1)) else none)
      ((t, []) :: rest) = some (some ('/' :: t)) := firstSome_cons_some hf
  simp only [matchPathDollar]
  rw [hr, hfs]
  simp

theorem matchPortPathDollar_tail (port? path? : Option (List Char))
    (hq : ∀ q, port? = some q → portOk q = true)
    (ht : ∀ t, path? = some t → pathOk t = true) :
    matchPortPathDollar (portPart port? ++ pathPart path?) =
      some (port?, path?.map (fun t => '/' :: t)) := by
  cases port? with
  | none =>
    cases path? with
    | none => rfl
    | some t =>
      have hnl : '\n' ∉ t := fun hm => (pathOk_spec (ht t rfl) '\n' hm).2.2 rfl
      simp only [portPart, pathPart, List.nil_append, Option.map_some]
      simp only [matchPortPathDollar]
      rw [if_neg (by decide), matchPathDollar_path hnl]
      rfl
  | some q =>
    have hqspec := portOk_spec (hq q rfl)
    cases path? with
    | none =>
      simp only [portPart, pathPart, List.append_nil]
      obtain ⟨rest, hr⟩ :=
        wordSplits_head hqspec.2 (Or.inl (rfl : ([] : List Char) = []))
      rw [List.append_nil] at hr
      have hf : (fun pr : List Char × List Char =>
          (matchPathDollar pr.2).map (fun pg => (some pr.1, pg)))
          (q, []) = some (some q, none) := by
        simp [matchPathDollar, dollarMatch]
      have hfs : firstSome (fun pr : List Char × List Char =>
          (matchPathDollar pr.2).map (fun pg => (some pr.1, pg)))
          ((q, []) :: rest) = some (some q, none) := firstSome_cons_some hf
      simp only [matchPortPathDollar]
      rw [hr, hfs]
      simp
    | some t =>
      have hnl : '\n' ∉ t := fun hm => (pathOk_spec (ht t rfl) '\n' hm).2.2 rfl
      have hcons : portPart (some q) ++ pathPart (some t) =
          ':' :: (q ++ '/' :: t) := by
        simp [portPart, pathPart]
      rw [hcons]
      obtain ⟨rest, hr⟩ :=
        wordSplits_head hqspec.2
          (Or.inr ⟨'/', t, (rfl : '/' :: t = '/' :: t), by decide⟩)
      have hf : (fun pr : List Char × List Char =>
          (matchPathDollar pr.2).map (fun pg => (some pr.1, pg)))
          (q, '/' :: t) = some (some q, some ('/' :: t)) := by
        simp [matchPathDollar_path hnl]
      have hfs : firstSome (fun pr : List Char × List Char =>
          (matchPathDollar pr.2).map (fun pg => (some pr.1, pg)))
          ((q, '/' :: t) :: rest) = some (some q, some ('/' :: t)) :=
        firstSome_cons_some hf
      simp only [matchPortPathDollar]
      rw [hr, hfs]
      simp

theorem matchHostFirstSome {t : List Char}
    {x : Option (List Char) × Option (List Char)}
    (ht : matchPortPathDollar t = some x) :
    ∀ h : List Char, (∀ c ∈ h, c ≠ ':' ∧ c ≠ '/' ∧ c ≠ '\n') →
    ∀ g : List Char → List Char,
    firstSome (fun pr => (matchPortPathDollar pr.2).map
      (fun y => (g pr.1, y.1, y.2))) (lazyDotSplits (h ++ t)) =
      some (g h, x.1, x.2) := by
  intro h
  induction h with
  | nil =>
    intro _ g
    obtain ⟨rest, hr⟩ := lazyDotSplits_head t
    rw [List.nil_append, hr]
    apply firstSome_cons_some
    simp [ht]
  | cons c h ih =>
    intro hc g
    obtain ⟨c1, c2, c3⟩ := hc c (by simp)
    rw [List.cons_append]
    simp only [lazyDotSplits]
    rw [if_neg c3]
    rw [firstSome_cons_none (by simp [matchPortPathDollar_not_delim c1 c2 c3])]
    rw [firstSome_map]
    have := ih (fun d hd => hc d (by simp [hd])) (fun l => g (c :: l))
    simp only [consFst]
    exact this

theorem matchHostRest_eq {t : List Char}
    {x : Option (List Char) × Option (List Char)}
    (ht : matchPortPathDollar t = some x)
    (h : List Char) (hc : ∀ c ∈ h, c ≠ ':' ∧ c ≠ '/' ∧ c ≠ '\n') :
    matchHostRest (h ++ t) = some (h, x.1, x.2) := by
  have := matchHostFirstSome ht h hc id
  simp only [id_eq] at this
  unfold matchHostRest
  exact this

theorem matchUserRest_eq {t : List Char}
    {y : List Char × Option (List Char) × Option (List Char)}
    (user? : Option (List Char))
    (hu : ∀ u, user? = some u → compOk u = true)
    (hht : matchHostRest t = some y)
    (hat : '@' ∉ t) :
    matchUserRest (userPart user? ++ t) =
      some (user?, y.1, y.2.1, y.2.2) := by
  cases user? with
  | none =>
    rw [show userPart none = [] from rfl, List.nil_append]
    unfold matchUserRest
    rw [gds_at_none hat]
    simp [firstSome, hht]
  | some u =>
    have hcomp := compOk_spec (hu u rfl)
    have h1 : '@' ∉ u := fun hm => (hcomp.2 '@' hm).2.2.1 rfl
    have h2 : '\n' ∉ u := fun hm => (hcomp.2 '\n' hm).2.2.2 rfl
    have harr : userPart (some u) ++ t = u ++ '@' :: t := by
      simp [userPart]
    rw [harr]
    unfold matchUserRest
    rw [gds_at_unique t hat u h1 h2]
    have hf : (fun pr : List Char × List Char =>
        (matchHostRest pr.2).map (fun x => (some pr.1, x.1, x.2.1, x.2.2)))
        (u, t) = some (some u, y.1, y.2.1, y.2.2) := by
      simp [hht]
    have hfs : firstSome (fun pr : List Char × List Char =>
        (matchHostRest pr.2).map (fun x => (some pr.1, x.1, x.2.1, x.2.2)))
        [(u, t)] = some (some u, y.1, y.2.1, y.2.2) := firstSome_cons_some hf
    rw [hfs]

theorem noCSS_of_no_colon {l : List Char} (h : ':' ∉ l) : noCSS l = true := by
  have h0 : noCSS (l ++ []) = noCSS [] := noCSS_append [] h
  rw [List.append_nil] at h0
  rw [h0]
  rfl

theorem matchIdentity_render (v : ValidParts) (hv : partsOk v = true) :
    matchIdentity (renderParts v) =
      some ⟨v.proto, v.user, v.host, v.port,
        v.path.map (fun t => '/' :: t)⟩ := by
  rw [partsOk] at hv
  simp only [Bool.and_eq_true] at hv
  obtain ⟨⟨⟨⟨hproto, huser⟩, hhost⟩, hport⟩, hpath⟩ := hv
  have hqfact : ∀ q, v.port = some q → portOk q = true := by
    intro q hq; rw [hq] at hport; exact hport
  have htfact : ∀ t, v.path = some t → pathOk t = true := by
    intro t ht; rw [ht] at hpath; exact hpath
  have hufact : ∀ u, v.user = some u → compOk u = true := by
    intro u hu; rw [hu] at huser; exact huser
  have hhostspec := compOk_spec hhost
  have step1 := matchPortPathDollar_tail v.port v.path hqfact htfact
  have hostconds : ∀ c ∈ v.host, c ≠ ':' ∧ c ≠ '/' ∧ c ≠ '\n' := fun c hc =>
    ⟨(hhostspec.2 c hc).1, (hhostspec.2 c hc).2.1, (hhostspec.2 c hc).2.2.2⟩
  have step2 := matchHostRest_eq step1 v.host hostconds
  have hat : '@' ∉ v.host ++ (portPart v.port ++ pathPart v.path) := by
    intro hm
    rcases List.mem_append.1 hm with hm | hm
    · exact ((hhostspec.2 '@' hm).2.2.1) rfl
    · rcases List.mem_append.1 hm with hm | hm
      · cases hp2 : v.port with
        | none => rw [hp2] at hm; simp [portPart] at hm
        | some q =>
          rw [hp2] at hm
          simp only [portPart] at hm
          rcases List.mem_cons.1 hm with hm | hm
          · exact absurd hm (by decide)
          · exact ((isWordChar_not_delim
              ((portOk_spec (hqfact q hp2)).2 '@' hm)).2.2.1) rfl
      · cases hp2 : v.path with
        | none => rw [hp2] at hm; simp [pathPart] at hm
        | some t =>
          rw [hp2] at hm
          simp only [pathPart] at hm
          rcases List.mem_cons.1 hm with hm | hm
          · exact absurd hm (by decide)
          · exact ((pathOk_spec (htfact t hp2) '@' hm).2.1) rfl
  have step3 := matchUserRest_eq v.user hufact step2 hat
  have hpathCSS : noCSS (pathPart v.path) = true := by
    cases hp2 : v.path with
    | none => rfl
    | some t =>
      simp only [pathPart]
      apply noCSS_of_no_colon
      intro hm
      rcases List.mem_cons.1 hm with hm | hm
      · exact absurd hm (by decide)
      · exact ((pathOk_spec (htfact t hp2) ':' hm).1) rfl
  have hnocss_tail2 : noCSS (portPart v.port ++ pathPart v.path) = true := by
    cases hq2 : v.port with
    | none => rw [show portPart none = [] from rfl, List.nil_append]; exact hpathCSS
    | some q =>
      obtain ⟨hqne, hqw⟩ := portOk_spec (hqfact q hq2)
      obtain ⟨c0, q', hq'⟩ := List.exists_cons_of_ne_nil hqne
      subst hq'
      rw [show portPart (some (c0 :: q')) = ':' :: (c0 :: q') from rfl,
        List.cons_append, noCSS]
      have hc0 : c0 ≠ '/' := (isWordChar_not_delim (hqw c0 (by simp))).2.1
      have hpre : [':', '/', '/'].isPrefixOf
          (':' :: ((c0 :: q') ++ pathPart v.path)) = false := by
        simp [List.isPrefixOf]
        intro h'
        exact absurd h'.symm hc0
      rw [hpre]
      have hq'CSS : noCSS ((c0 :: q') ++ pathPart v.path) = true := by
        rw [noCSS_append _ (fun hm =>
          (isWordChar_not_delim (hqw _ hm)).1 rfl)]
        exact hpathCSS
      rw [hq'CSS]
      rfl
  have husercolon : ':' ∉ userPart v.user := by
    intro hm
    cases hu2 : v.user with
    | none => rw [hu2] at hm; simp [userPart] at hm
    | some u =>
      rw [hu2] at hm
      simp only [userPart] at hm
      rcases List.mem_append.1 hm with hm | hm
      · exact ((compOk_spec (hufact u hu2)).2 ':' hm).1 rfl
      · rcases List.mem_cons.1 hm with hm | hm
        · exact absurd hm (by decide)
        · simp at hm
  have hnocss_rest : noCSS (userPart v.user ++
      (v.host ++ (portPart v.port ++ pathPart v.path))) = true := by
    rw [noCSS_append _ husercolon,
      noCSS_append _ (fun hm => ((hhostspec.2 ':' hm).1) rfl)]
    exact hnocss_tail2
  cases hp : v.proto with
  | none =>
    have hrender : renderParts v = userPart v.user ++
        (v.host ++ (portPart v.port ++ pathPart v.path)) := by
      rw [renderParts, hp]
      simp [protoPart, List.append_assoc]
    rw [hrender]
    unfold matchIdentity
    rw [gds_proto_none _ hnocss_rest]
    simp [firstSome, step3]
  | some p =>
    have hpspec := compOk_spec (by rw [hp] at hproto; exact hproto)
    have hpcolon : ':' ∉ p := fun hm => ((hpspec.2 ':' hm).1) rfl
    have hpnl : '\n' ∉ p := fun hm => ((hpspec.2 '\n' hm).2.2.2) rfl
    have hrender : renderParts v = p ++ (':' :: '/' :: '/' ::
        (userPart v.user ++
          (v.host ++ (portPart v.port ++ pathPart v.path)))) := by
      rw [renderParts, hp]
      simp [protoPart, List.append_assoc]
    have hr2 : noCSS ('/' :: '/' :: (userPart v.user ++
        (v.host ++ (portPart v.port ++ pathPart v.path)))) = true := by
      have hsh : ('/' :: '/' :: (userPart v.user ++
          (v.host ++ (portPart v.port ++ pathPart v.path)))) =
          ['/', '/'] ++ (userPart v.user ++
          (v.host ++ (portPart v.port ++ pathPart v.path))) := rfl
      rw [hsh, noCSS_append _ (by decide)]
      exact hnocss_rest
    rw [hrender]
    unfold matchIdentity
    rw [gds_proto_unique _ hr2 p hpcolon hpnl]
    have hf : (fun pr : List Char × List Char =>
        (matchUserRest pr.2).map
          (fun x => RegexGroups.mk (some pr.1) x.1 x.2.1 x.2.2.1 x.2.2.2))
        (p, userPart v.user ++
          (v.host ++ (portPart v.port ++ pathPart v.path))) =
        some ⟨some p, v.user, v.host, v.port,
          v.path.map (fun t => '/' :: t)⟩ := by
      simp [step3]
    have hfs : firstSome (fun pr : List Char × List Char =>
        (matchUserRest pr.2).map
          (fun x => RegexGroups.mk (some pr.1) x.1 x.2.1 x.2.2.1 x.2.2.2))
        [(p, userPart v.user ++
          (v.host ++ (portPart v.port ++ pathPart v.path)))] =
        some ⟨some p, v.user, v.host, v.port,
          v.path.map (fun t => '/' :: t)⟩ := firstSome_cons_some hf
    rw [hfs]

/-- C2: for every valid identity string (grammar
`[proto://][user@]host[:port][/path]`, no delimiter-conflicting characters),
parsing succeeds, formatting the parsed identity returns the original string,
and re-parsing the formatted string yields the identical identity. -/
theorem identity_roundtrip (s : String) (h : ValidIdentityString s) :
    ∃ i, _string_to_identity s = some i ∧ _identity_to_string i = s ∧
      _string_to_identity (_identity_to_string i) = some i := by
  obtain ⟨v, hv, hs⟩ := h
  have hmatch := matchIdentity_render v hv
  rw [partsOk] at hv
  simp only [Bool.and_eq_true] at hv
  obtain ⟨⟨⟨⟨hproto, huser⟩, hhost⟩, hport⟩, hpath⟩ := hv
  have hparse : _string_to_identity s = some
      { proto := groupField v.proto, user := groupField v.user,
        host := String.mk v.host, port := groupField v.port,
        path := groupField (v.path.map (fun t => '/' :: t)), index := 0 } := by
    unfold _string_to_identity
    rw [hs, hmatch]
    rfl
  have h1 : (if groupField v.proto ≠ "" then groupField v.proto ++ "://"
      else "").data = protoPart v.proto := by
    cases hp : v.proto with
    | none => simp [groupField, protoPart]
    | some p =>
      have hne : p ≠ [] := (compOk_spec (by rw [hp] at hproto; exact hproto)).1
      have hne' : groupField (some p) ≠ "" := by
        intro hcon
        apply hne
        have := congrArg String.data hcon
        simpa [groupField] using this
      rw [if_pos hne']
      simp [groupField, protoPart, String.data_append]
  have h2 : (if groupField v.user ≠ "" then groupField v.user ++ "@"
      else "").data = userPart v.user := by
    cases hp : v.user with
    | none => simp [groupField, userPart]
    | some u =>
      have hne : u ≠ [] := (compOk_spec (by rw [hp] at huser; exact huser)).1
      have hne' : groupField (some u) ≠ "" := by
        intro hcon
        apply hne
        have := congrArg String.data hcon
        simpa [groupField] using this
      rw [if_pos hne']
      simp [groupField, userPart, String.data_append]
  have h4 : (if groupField v.port ≠ "" then ":" ++ groupField v.port
      else "").data = portPart v.port := by
    cases hp : v.port with
    | none => simp [groupField, portPart]
    | some q =>
      have hne : q ≠ [] := (portOk_spec (by rw [hp] at hport; exact hport)).1
      have hne' : groupField (some q) ≠ "" := by
        intro hcon
        apply hne
        have := congrArg String.data hcon
        simpa [groupField] using this
      rw [if_pos hne']
      simp [groupField, portPart, String.data_append]
  have h5 : (if groupField (v.path.map (fun t => '/' :: t)) ≠ "" then
      groupField (v.path.map (fun t => '/' :: t)) else "").data =
      pathPart v.path := by
    cases hp : v.path with
    | none => simp [groupField, pathPart]
    | some t =>
      simp only [Option.map_some']
      have hne' : groupField (some ('/' :: t)) ≠ "" := by
        intro hcon
        have := congrArg String.data hcon
        simp [groupField] at this
      rw [if_pos hne']
      simp [groupField, pathPart]
  have hformat : _identity_to_string
      { proto := groupField v.proto, user := groupField v.user,
        host := String.mk v.host, port := groupField v.port,
        path := groupField (v.path.map (fun t => '/' :: t)), index := 0 } =
      s := by
    apply String.ext
    rw [hs, renderParts]
    unfold _identity_to_string
    simp only [String.data_append]
    rw [h1, h2, h4, h5]
  exact ⟨_, hparse, hformat, by rw [hformat]; exact hparse⟩

/-- Witness for C2 at `"ssh://alice@example.com/"`. -/
theorem identity_roundtrip_witness :
    ValidIdentityString "ssh://alice@example.com/" ∧
    ∃ i, _string_to_identity "ssh://alice@example.com/" = some i ∧
      _identity_to_string i = "ssh://alice@example.com/" ∧
      _string_to_identity (_identity_to_string i) = some i :=
  have hval : ValidIdentityString "ssh://alice@example.com/" :=
    ⟨⟨some "ssh".data, some "alice".data, "example.com".data, none, some []⟩,
      by decide, by decide⟩
  ⟨hval, identity_roundtrip "ssh://alice@example.com/" hval⟩

/-! ### Sanity checks on concrete inputs, cross-checked against CPython re -/

example : _string_to_identity "ssh://alice@example.com/" =
    some { proto := "ssh", user := "alice", host := "example.com", path := "/" } := by
  decide

example : _string_to_identity "host:22/x" =
    some { host := "host", port := "22", path := "/x" } := by decide

example : _string_to_identity "a\nb" = none := by decide

example : _identity_to_string { proto := "ssh", user := "alice", host := "h" } =
    "ssh://alice@h" := by decide

example : matchIdentity "://host".data =
    some ⟨some [], none, "host".data, none, none⟩ := by decide
example : matchIdentity "host:".data =
    some ⟨none, none, "host".data, some [], none⟩ := by decide
example : matchIdentity "a@b://host".data =
    some ⟨some "a@b".data, none, "host".data, none, none⟩ := by decide
example : matchIdentity "host/a@b".data =
    some ⟨none, some "host/a".data, "b".data, none, none⟩ := by decide
example : matchIdentity "host/a://b".data =
    some ⟨some "host/a".data, none, "b".data, none, none⟩ := by decide
example : matchIdentity "".data = some ⟨none, none, [], none, none⟩ := by decide
example : matchIdentity "\n".data = some ⟨none, none, [], none, none⟩ := by decide
example : matchIdentity "ab\n".data =
    some ⟨none, none, "ab".data, none, none⟩ := by decide
example : matchIdentity "a:b:c".data =
    some ⟨none, none, "a:b".data, some "c".data, none⟩ := by decide
example : matchIdentity "u@h:pp/q/r".data =
    some ⟨none, some "u".data, "h".data, some "pp".data, some "/q/r".data⟩ := by decide
example : matchIdentity "x://y://z".data =
    some ⟨some "x://y".data, none, "z".data, none, none⟩ := by decide
example : matchIdentity "h:8_0/p".data =
    some ⟨none, none, "h".data, some "8_0".data, some "/p".data⟩ := by decide
example : matchIdentity ":/".data =
    some ⟨none, none, [], some [], some "/".data⟩ := by decide
example : matchIdentity "h:p:q".data =
    some ⟨none, none, "h:p".data, some "q".data, none⟩ := by decide
example : matchIdentity "a@b@c".data =
    some ⟨none, some "a@b".data, "c".data, none, none⟩ := by decide
example : matchIdentity "h/".data =
    some ⟨none, none, "h".data, none, some "/".data⟩ := by decide
example : matchIdentity "h//x".data =
    some ⟨none, none, "h".data, none, some "//x".data⟩ := by decide
example : matchIdentity "h:/p".data =
    some ⟨none, none, "h".data, some [], some "/p".data⟩ := by decide
